import Mathlib

set_option maxHeartbeats 1000000

-- Verification development for the ASIX SIGMA/SIGMA2 logic analyzer driver
-- core (src/hardware/asix-sigma/protocol.c). Machine integers are modelled
-- as Nat with explicit reductions modulo 2^w where C overflow semantics
-- matter; fallible calls return a status paired with their outputs.

/-- Deinterlace one sub-sample of data retrieved at 100 MHz samplerate.
One 16-bit item contains two 8-bit samples whose bits are interleaved
with stride 2 (sigma_deinterlace_100mhz_data in protocol.c). -/
def sigma_deinterlace_100mhz_data (indata0 idx : Nat) : Nat :=
  let indata := indata0 >>> idx
  let outdata := 0
  let outdata := outdata ||| ((indata >>> (0 * 2 - 0)) &&& (1 <<< 0))
  let outdata := outdata ||| ((indata >>> (1 * 2 - 1)) &&& (1 <<< 1))
  let outdata := outdata ||| ((indata >>> (2 * 2 - 2)) &&& (1 <<< 2))
  let outdata := outdata ||| ((indata >>> (3 * 2 - 3)) &&& (1 <<< 3))
  let outdata := outdata ||| ((indata >>> (4 * 2 - 4)) &&& (1 <<< 4))
  let outdata := outdata ||| ((indata >>> (5 * 2 - 5)) &&& (1 <<< 5))
  let outdata := outdata ||| ((indata >>> (6 * 2 - 6)) &&& (1 <<< 6))
  let outdata := outdata ||| ((indata >>> (7 * 2 - 7)) &&& (1 <<< 7))
  outdata

/-- Deinterlace one sub-sample of data retrieved at 200 MHz samplerate.
One 16-bit item contains four 4-bit samples whose bits are interleaved
with stride 4 (sigma_deinterlace_200mhz_data in protocol.c). -/
def sigma_deinterlace_200mhz_data (indata0 idx : Nat) : Nat :=
  let indata := indata0 >>> idx
  let outdata := 0
  let outdata := outdata ||| ((indata >>> (0 * 4 - 0)) &&& (1 <<< 0))
  let outdata := outdata ||| ((indata >>> (1 * 4 - 1)) &&& (1 <<< 1))
  let outdata := outdata ||| ((indata >>> (2 * 4 - 2)) &&& (1 <<< 2))
  let outdata := outdata ||| ((indata >>> (3 * 4 - 3)) &&& (1 <<< 3))
  outdata

lemma testBit_shift_and_pow (x a b c : Nat) :
    ((x >>> a) &&& (1 <<< b)).testBit c =
      (x.testBit (a + b) && decide (b = c)) := by
  rw [Nat.shiftLeft_eq, one_mul, Nat.and_two_pow]
  cases h : (x >>> a).testBit b with
  | false =>
    rw [Nat.testBit_shiftRight] at h
    simp [h]
  | true =>
    rw [Nat.testBit_shiftRight] at h
    simp [h, Nat.testBit_two_pow]

lemma shift_and_pow_lt (x a b n : Nat) (h : b < n) :
    (x >>> a) &&& (1 <<< b) < 2 ^ n := by
  have h1 : (x >>> a) &&& (1 <<< b) ≤ 1 <<< b := Nat.and_le_right
  have h2 : (1 : Nat) <<< b < 2 ^ n := by
    rw [Nat.shiftLeft_eq, one_mul]
    exact Nat.pow_lt_pow_right (by norm_num) h
  omega

/-- Claim C10: the deinterlace helpers only populate the low channel bits.
At 100 MHz the result is strictly below 2^8 and its bit k (k < 8) is bit
idx + 2*k of the packed input item; at 200 MHz the result is strictly
below 2^4 and its bit k (k < 4) is bit idx + 4*k of the input; all higher
output bits are zero for every input. -/
theorem sigma_deinterlace_low_bits_only (indata idx : Nat) :
    (sigma_deinterlace_100mhz_data indata idx < 2 ^ 8 ∧
      ∀ k : Fin 8, (sigma_deinterlace_100mhz_data indata idx).testBit k.val =
        indata.testBit (idx + 2 * k.val)) ∧
    (sigma_deinterlace_200mhz_data indata idx < 2 ^ 4 ∧
      ∀ k : Fin 4, (sigma_deinterlace_200mhz_data indata idx).testBit k.val =
        indata.testBit (idx + 4 * k.val)) := by
  refine ⟨⟨?_, ?_⟩, ⟨?_, ?_⟩⟩
  · unfold sigma_deinterlace_100mhz_data
    refine Nat.or_lt_two_pow ?_ (shift_and_pow_lt _ _ _ _ (by norm_num))
    refine Nat.or_lt_two_pow ?_ (shift_and_pow_lt _ _ _ _ (by norm_num))
    refine Nat.or_lt_two_pow ?_ (shift_and_pow_lt _ _ _ _ (by norm_num))
    refine Nat.or_lt_two_pow ?_ (shift_and_pow_lt _ _ _ _ (by norm_num))
    refine Nat.or_lt_two_pow ?_ (shift_and_pow_lt _ _ _ _ (by norm_num))
    refine Nat.or_lt_two_pow ?_ (shift_and_pow_lt _ _ _ _ (by norm_num))
    refine Nat.or_lt_two_pow ?_ (shift_and_pow_lt _ _ _ _ (by norm_num))
    refine Nat.or_lt_two_pow ?_ (shift_and_pow_lt _ _ _ _ (by norm_num))
    norm_num
  · intro k
    unfold sigma_deinterlace_100mhz_data
    fin_cases k <;>
      · simp only [Nat.testBit_or, testBit_shift_and_pow, Nat.testBit_shiftRight]
        norm_num
  · unfold sigma_deinterlace_200mhz_data
    refine Nat.or_lt_two_pow ?_ (shift_and_pow_lt _ _ _ _ (by norm_num))
    refine Nat.or_lt_two_pow ?_ (shift_and_pow_lt _ _ _ _ (by norm_num))
    refine Nat.or_lt_two_pow ?_ (shift_and_pow_lt _ _ _ _ (by norm_num))
    refine Nat.or_lt_two_pow ?_ (shift_and_pow_lt _ _ _ _ (by norm_num))
    norm_num
  · intro k
    unfold sigma_deinterlace_200mhz_data
    fin_cases k <;>
      · simp only [Nat.testBit_or, testBit_shift_and_pow, Nat.testBit_shiftRight]
        norm_num

/-- Table of supported samplerates in Hz (protocol.c samplerates[]). -/
def samplerates : List Nat :=
  [200000, 250000, 500000, 1000000, 5000000, 10000000,
   25000000, 50000000, 100000000, 200000000]

/-- Translation of a sample-count limit into a capture duration in
milliseconds, in uint64 arithmetic (sigma_limit_samples_to_msec in
protocol.c). Only cur_samplerate of the device context contributes. -/
def sigma_limit_samples_to_msec (cur_samplerate limit_samples : Nat) : Nat :=
  let limit_msec := limit_samples * 1000 % 2 ^ 64 / cur_samplerate
  let worst_cluster_time_ms := 65536 * 1000 / cur_samplerate
  (limit_msec + 2 * worst_cluster_time_ms) % 2 ^ 64

/-- Claim C3 counterexample: for 1 sample at 200 kHz the code computes
654 ms, while the claim's formula n * 1000 / r + 2 * 65536 * 1000 / r
(C-style left-to-right integer arithmetic) yields 655 ms. -/
theorem sigma_limit_msec_counterexample :
    sigma_limit_samples_to_msec 200000 1 = 654 ∧
    1 * 1000 / 200000 + 2 * 65536 * 1000 / 200000 = 655 :=
  ⟨rfl, rfl⟩

/-- Claim C3 (amended): for every sample limit n and supported samplerate r
the result is n * 1000 / r + 2 * (65536 * 1000 / r), uint64 arithmetic with
the product n * 1000 reduced modulo 2^64; the factor 2 scales the already
divided worst-case cluster time, so 1 sample at 200 kHz gives 654 ms. -/
theorem sigma_limit_samples_to_msec_eq (r n : Nat) (hr : r ∈ samplerates) :
    sigma_limit_samples_to_msec r n =
      n * 1000 % 2 ^ 64 / r + 2 * (65536 * 1000 / r) := by
  have hr2 : 200000 ≤ r := by fin_cases hr <;> norm_num
  have hm : n * 1000 % 2 ^ 64 ≤ 2 ^ 64 - 1 :=
    Nat.le_sub_one_of_lt (Nat.mod_lt _ (by norm_num))
  have hx : n * 1000 % 2 ^ 64 / r ≤ (2 ^ 64 - 1) / 200000 :=
    le_trans (Nat.div_le_div_right hm) (Nat.div_le_div_left hr2 (by norm_num))
  have hb : 65536 * 1000 / r ≤ 65536 * 1000 / 200000 :=
    Nat.div_le_div_left hr2 (by norm_num)
  have hlt : n * 1000 % 2 ^ 64 / r + 2 * (65536 * 1000 / r) < 2 ^ 64 := by
    norm_num at hx hb ⊢
    omega
  simp only [sigma_limit_samples_to_msec]
  exact Nat.mod_eq_of_lt hlt

/-- Witness for claim C3's amended theorem at 1 sample and 200 kHz. -/
theorem sigma_limit_samples_to_msec_eq_witness :
    sigma_limit_samples_to_msec 200000 1 =
      1 * 1000 % 2 ^ 64 / 200000 + 2 * (65536 * 1000 / 200000) :=
  sigma_limit_samples_to_msec_eq 200000 1 (by decide)

/-- Adjustment sigma_read_pos applies to each raw position counter, in
uint32 arithmetic: decrement, then subtract 64 more when the decremented
value masked with 0x1ff equals 0x1ff (protocol.c sigma_read_pos). -/
def sigma_pos_adjust (pos : Nat) : Nat :=
  let p := (pos + (2 ^ 32 - 1)) % 2 ^ 32
  if p &&& 0x1ff = 0x1ff then (p + (2 ^ 32 - 64)) % 2 ^ 32 else p

/-- Assembly and adjustment of the stop and trigger position counters from
the six response bytes of the auto-increment register read: bytes 0..2 form
the trigger position, bytes 3..5 the stop position, each little-endian;
both are adjusted independently (protocol.c sigma_read_pos). The result
pair is (stoppos, triggerpos). -/
def sigma_read_pos (result : Fin 6 → Nat) : Nat × Nat :=
  let triggerpos := result 0 ||| (result 1 <<< 8) ||| (result 2 <<< 16)
  let stoppos := result 3 ||| (result 4 <<< 8) ||| (result 5 <<< 16)
  (sigma_pos_adjust stoppos, sigma_pos_adjust triggerpos)

/-- Formulation of claim C6's adjustment in the spec's words: decrement by
one, and subtract another 64 exactly when the decremented value satisfies
(pos & 0x1ff) == 0x1ff. -/
def posAdjustSpec (pos : Nat) : Nat :=
  if (pos - 1) &&& 0x1ff = 0x1ff then pos - 1 - 64 else pos - 1

lemma sigma_pos_adjust_spec (p : Nat) (h1 : 1 ≤ p) (h2 : p < 2 ^ 24) :
    sigma_pos_adjust p = posAdjustSpec p := by
  have h511 : (0x1ff : Nat) = 2 ^ 9 - 1 := by norm_num
  have hdec : (p + (2 ^ 32 - 1)) % 2 ^ 32 = p - 1 := by
    have : p + (2 ^ 32 - 1) = (p - 1) + 1 * 2 ^ 32 := by omega
    rw [this, Nat.add_mul_mod_self_right, Nat.mod_eq_of_lt (by omega)]
  simp only [sigma_pos_adjust, posAdjustSpec, hdec, h511,
    Nat.and_pow_two_sub_one_eq_mod]
  split
  · next hmask =>
    have : (p - 1) + (2 ^ 32 - 64) = (p - 1 - 64) + 1 * 2 ^ 32 := by
      have : 64 ≤ (p - 1) % 2 ^ 9 := by omega
      have := Nat.mod_le (p - 1) (2 ^ 9)
      omega
    rw [this, Nat.add_mul_mod_self_right, Nat.mod_eq_of_lt (by omega)]
  · rfl

/-- Claim C6: for every pair of raw 24-bit counters assembled little-endian
from the six read-back bytes (trigger from bytes 0..2, stop from bytes
3..5), sigma_read_pos returns each counter decremented by one and further
decremented by 64 exactly when the post-decrement value satisfies
(pos & 0x1ff) == 0x1ff, independently for the stop and trigger positions. -/
theorem sigma_read_pos_adjusts (b : Fin 6 → Nat) (hb : ∀ i, b i < 256)
    (ht : 1 ≤ b 0 ||| (b 1 <<< 8) ||| (b 2 <<< 16))
    (hs : 1 ≤ b 3 ||| (b 4 <<< 8) ||| (b 5 <<< 16)) :
    sigma_read_pos b =
      (posAdjustSpec (b 3 ||| (b 4 <<< 8) ||| (b 5 <<< 16)),
       posAdjustSpec (b 0 ||| (b 1 <<< 8) ||| (b 2 <<< 16))) := by
  have hlt : ∀ i j k : Fin 6, b i ||| (b j <<< 8) ||| (b k <<< 16) < 2 ^ 24 := by
    intro i j k
    refine Nat.or_lt_two_pow (Nat.or_lt_two_pow ?_ ?_) ?_
    · exact lt_trans (hb i) (by norm_num)
    · rw [Nat.shiftLeft_eq]
      have := hb j
      norm_num
      omega
    · rw [Nat.shiftLeft_eq]
      have := hb k
      norm_num
      omega
  simp only [sigma_read_pos]
  rw [sigma_pos_adjust_spec _ hs (hlt 3 4 5), sigma_pos_adjust_spec _ ht (hlt 0 1 2)]

/-- Witness for claim C6's theorem: bytes giving the trigger counter 0x3412
and the stop counter 0x0200; the stop path exercises the extra subtraction
by 64 (0x1ff & 0x1ff), yielding 447, the trigger path yields 0x3411. -/
theorem sigma_read_pos_adjusts_witness :
    sigma_read_pos ![0x12, 0x34, 0, 0, 2, 0] = (447, 0x3411) := by
  have h := sigma_read_pos_adjusts ![0x12, 0x34, 0, 0, 2, 0]
    (by decide) (by decide) (by decide)
  rw [h]
  decide

/-- Modelled from the spec: the result statuses the driver returns to the
enclosing framework (success, generic error, I/O, malloc, timeout,
unsupported samplerate, internal bug). The libsigrok header defining the
SR_OK / SR_ERR_* integer codes is not among the given sources. -/
inductive SrStatus where
  | ok
  | err
  | err_io
  | err_malloc
  | err_bug
  | err_timeout
  | err_samplerate
deriving DecidableEq, Repr

/-- Modelled from the spec: the ADDR_LOW command opcode of the nibble-framed
register protocol; protocol.h is not among the given sources, the spec says
every command byte carries a 4-bit opcode in the high nibble and a 4-bit
payload in the low nibble. -/
def REG_ADDR_LOW : Nat := 0x0 <<< 4

/-- Modelled from the spec: the ADDR_HIGH command opcode (high nibble). -/
def REG_ADDR_HIGH : Nat := 0x1 <<< 4

/-- Modelled from the spec: the DATA_LOW command opcode (high nibble). -/
def REG_DATA_LOW : Nat := 0x2 <<< 4

/-- Modelled from the spec: the DATA_HIGH_WRITE command opcode. -/
def REG_DATA_HIGH_WRITE : Nat := 0x3 <<< 4

/-- Modelled from the spec: the READ_ADDR command opcode. -/
def REG_READ_ADDR : Nat := 0x4 <<< 4

/-- Modelled from the spec: the auto-increment flag ORed onto read
strobes. -/
def REG_ADDR_INC : Nat := 0x8 <<< 4

/-- Encoding of a register write (protocol.c sigma_write_register): two
address set-up bytes followed by a data-low/data-high byte pair per data
byte, all staged in an 80-byte scratch buffer. Returns the status together
with the exact bytes handed to the cable; when 2 * len + 2 exceeds the
scratch buffer, SR_ERR_BUG is returned and nothing is transmitted. -/
def sigma_write_register (reg : Nat) (data : List Nat) : SrStatus × List Nat :=
  if 2 * data.length + 2 > 80 then (.err_bug, [])
  else (.ok,
    (REG_ADDR_LOW ||| (reg &&& 0xf)) ::
    (REG_ADDR_HIGH ||| (reg >>> 4)) ::
    data.flatMap (fun d =>
      [REG_DATA_LOW ||| (d &&& 0xf), REG_DATA_HIGH_WRITE ||| (d >>> 4)]))

lemma flatMap_length_const (f : Nat → List Nat) (c : Nat)
    (hf : ∀ a, (f a).length = c) (l : List Nat) :
    (l.flatMap f).length = c * l.length := by
  induction l with
  | nil => simp
  | cons a t ih =>
    simp [List.flatMap_cons, ih, hf a, Nat.mul_succ, Nat.add_comm]

lemma flatMap_getD_const (f : Nat → List Nat) (c : Nat)
    (hf : ∀ a, (f a).length = c) (l : List Nat) (k j : Nat)
    (hk : k < l.length) (hj : j < c) :
    (l.flatMap f).getD (c * k + j) 0 = (f (l.getD k 0)).getD j 0 := by
  induction l generalizing k with
  | nil => simp at hk
  | cons a t ih =>
    cases k with
    | zero =>
      simp only [List.flatMap_cons, Nat.mul_zero, Nat.zero_add]
      rw [List.getD_append _ _ _ _ (by rw [hf a]; exact hj)]
      simp
    | succ k =>
      simp only [List.flatMap_cons]
      rw [List.getD_append_right]
      · rw [hf a]
        have harith : c * (k + 1) + j - c = c * k + j := by ring_nf; omega
        rw [harith]
        simpa using ih k (by simpa using hk)
      · rw [hf a]
        have : c * (k + 1) = c * k + c := by ring
        omega

/-- Claim C5: when 2 * N + 2 fits the 80-byte scratch buffer, the register
write succeeds and emits exactly ADDR_LOW with the register's low nibble,
ADDR_HIGH with its high nibble, then one DATA_LOW/DATA_HIGH_WRITE nibble
pair per data byte, 2 + 2 * N bytes in that order; when 2 * N + 2 exceeds
the buffer, the internal-bug error is returned and nothing is
transmitted. -/
theorem sigma_write_register_frame (reg : Nat) (data : List Nat) :
    (2 * data.length + 2 ≤ 80 →
      (sigma_write_register reg data).1 = .ok ∧
      (sigma_write_register reg data).2.length = 2 + 2 * data.length ∧
      (sigma_write_register reg data).2.getD 0 0
        = REG_ADDR_LOW ||| (reg &&& 0xf) ∧
      (sigma_write_register reg data).2.getD 1 0
        = REG_ADDR_HIGH ||| (reg >>> 4) ∧
      (∀ i < data.length,
        (sigma_write_register reg data).2.getD (2 + 2 * i) 0
          = REG_DATA_LOW ||| (data.getD i 0 &&& 0xf) ∧
        (sigma_write_register reg data).2.getD (2 + 2 * i + 1) 0
          = REG_DATA_HIGH_WRITE ||| (data.getD i 0 >>> 4))) ∧
    (2 * data.length + 2 > 80 →
      (sigma_write_register reg data).1 = .err_bug ∧
      (sigma_write_register reg data).2 = []) := by
  have hpair : ∀ d : Nat,
      ([REG_DATA_LOW ||| (d &&& 0xf), REG_DATA_HIGH_WRITE ||| (d >>> 4)]).length
        = 2 := by intro d; rfl
  constructor
  · intro hfit
    have heq : sigma_write_register reg data =
        (.ok,
          (REG_ADDR_LOW ||| (reg &&& 0xf)) ::
          (REG_ADDR_HIGH ||| (reg >>> 4)) ::
          data.flatMap (fun d =>
            [REG_DATA_LOW ||| (d &&& 0xf), REG_DATA_HIGH_WRITE ||| (d >>> 4)])) := by
      simp only [sigma_write_register,
        if_neg (by omega : ¬ (2 * data.length + 2 > 80))]
    rw [heq]
    refine ⟨rfl, ?_, rfl, rfl, ?_⟩
    · simp only [List.length_cons, flatMap_length_const _ 2 hpair data]
      omega
    · intro i hi
      constructor
      · rw [(by omega : 2 + 2 * i = 2 * i + 1 + 1)]
        simp only [List.getD_cons_succ]
        have h := flatMap_getD_const _ 2 hpair data i 0 hi (by norm_num)
        rw [Nat.add_zero] at h
        exact h
      · rw [(by omega : 2 + 2 * i + 1 = 2 * i + 1 + 1 + 1)]
        simp only [List.getD_cons_succ]
        exact flatMap_getD_const _ 2 hpair data i 1 hi (by norm_num)
  · intro hover
    have heq : sigma_write_register reg data = (.err_bug, []) := by
      simp only [sigma_write_register, if_pos hover]
    rw [heq]
    exact ⟨rfl, rfl⟩

/-- Witness for claim C5's theorem: a one-byte write of 0xab to register
0x25 emits the four bytes 0x05, 0x12, 0x2b, 0x3a; a 40-byte write over-
flows the scratch buffer and is rejected. -/
theorem sigma_write_register_frame_witness :
    (sigma_write_register 0x25 [0xab]).1 = .ok ∧
    (sigma_write_register 0x25 [0xab]).2.getD 2 0
      = REG_DATA_LOW ||| (0xab &&& 0xf) ∧
    (sigma_write_register 0x25 (List.replicate 40 0)).2 = [] := by
  have h := sigma_write_register_frame 0x25 [0xab]
  have h2 := sigma_write_register_frame 0x25 (List.replicate 40 0)
  refine ⟨(h.1 (by norm_num)).1, ?_, (h2.2 (by simp)).2⟩
  have := ((h.1 (by norm_num)).2.2.2.2 0 (by norm_num)).1
  simpa using this

/-- Construction of one family of trigger LUT entries from a value/mask
pair (protocol.c build_lut_entry): the entry of quad i starts at 0xffff
and LUT bit j is cleared whenever some channel k of the quad is selected
by the mask and the expected value bit disagrees with bit k of j. -/
def build_lut_entry (value mask : Nat) (i : Nat) : Nat :=
  (List.range 16).foldl (fun entry j =>
    (List.range 4).foldl (fun entry k =>
      let bit := 1 <<< (i * 4 + k)
      if (mask &&& bit != 0)
          && ((value &&& bit == 0) != (j &&& (1 <<< k) == 0)) then
        entry &&& (0xffff ^^^ (1 <<< j))
      else entry) entry) 0xffff

lemma and_one_shift_beq_zero (x m : Nat) :
    (x &&& (1 <<< m) == 0) = !(x.testBit m) := by
  rw [Nat.shiftLeft_eq, one_mul, Nat.and_two_pow]
  cases h : x.testBit m <;> simp [h, Nat.pow_eq_zero]

lemma and_one_shift_bne_zero (x m : Nat) :
    (x &&& (1 <<< m) != 0) = x.testBit m := by
  simp only [bne, and_one_shift_beq_zero, Bool.not_not]

lemma testBit_nibble (x s k : Nat) (hk : k < 4) :
    ((x >>> (4 * s)) &&& 15).testBit k = x.testBit (4 * s + k) := by
  have h15 : (15 : Nat) = 2 ^ 4 - 1 := by norm_num
  rw [Nat.testBit_and, Nat.testBit_shiftRight, h15,
    Nat.testBit_two_pow_sub_one]
  simp [hk]

lemma build_lut_entry_nibble (value mask i : Nat) :
    build_lut_entry value mask i
      = build_lut_entry ((value >>> (4 * i)) &&& 15)
          ((mask >>> (4 * i)) &&& 15) 0 := by
  unfold build_lut_entry
  apply List.foldl_ext
  intro entry j hj
  apply List.foldl_ext
  intro entry2 k hk
  have hk4 : k < 4 := List.mem_range.mp hk
  have hzero : (0 : Nat) * 4 + k = k := by omega
  have hmul : i * 4 + k = 4 * i + k := by omega
  simp only [hzero, hmul]
  rw [and_one_shift_bne_zero mask, and_one_shift_beq_zero value,
    and_one_shift_bne_zero ((mask >>> (4 * i)) &&& 15),
    and_one_shift_beq_zero ((value >>> (4 * i)) &&& 15),
    testBit_nibble mask i k hk4, testBit_nibble value i k hk4]

lemma build_lut_entry_nibble_spec :
    ∀ v < 16, ∀ m < 16, ∀ j < 16,
      (build_lut_entry v m 0).testBit j = ((j &&& m) == (v &&& m)) := by
  decide

/-- Claim C9: for every 16-bit value and mask, every quad i < 4 and every
LUT position j < 16, bit j of build_lut_entry's quad-i entry is set exactly
when (j & mask_quad_i) == (value_quad_i & mask_quad_i), where mask_quad_i
and value_quad_i are the 4-bit slices of mask and value covering channels
4i..4i+3. -/
theorem build_lut_entry_matches (value mask : Nat) (i : Fin 4) (j : Fin 16) :
    (build_lut_entry value mask i.val).testBit j.val =
      ((j.val &&& ((mask >>> (4 * i.val)) &&& 15))
        == (((value >>> (4 * i.val)) &&& 15) &&& ((mask >>> (4 * i.val)) &&& 15))) := by
  rw [build_lut_entry_nibble]
  exact build_lut_entry_nibble_spec _ (Nat.lt_succ_of_le Nat.and_le_right) _
    (Nat.lt_succ_of_le Nat.and_le_right) _ j.isLt

/-- Modelled from the spec: the low-level trigger configuration, bit masks
over the 16 channels (struct sigma_trigger; protocol.h is not among the
given sources). -/
structure SigmaTrigger where
  simplevalue : Nat
  simplemask : Nat
  risingmask : Nat
  fallingmask : Nat
deriving DecidableEq, Repr

/-- Check of the three software trigger conditions of get_trigger_offset
(protocol.c): value/mask match, rising edges fire, falling edges fire; the
edge tests compare against the previous sample. The loop continues when
any of the three checks fails. -/
def trigger_match (t : SigmaTrigger) (sample last_sample : Nat) : Bool :=
  (sample &&& t.simplemask == t.simplevalue)
    && (last_sample &&& t.risingmask == 0)
    && (sample &&& t.risingmask == t.risingmask)
    && (last_sample &&& t.fallingmask == t.fallingmask)
    && (sample &&& t.fallingmask == 0)

/-- Window sample i of get_trigger_offset: two bytes assembled
little-endian, samples[2*i] | (samples[2*i+1] << 8). -/
def window_sample (samples : Nat → Nat) (i : Nat) : Nat :=
  samples (2 * i) ||| (samples (2 * i + 1) <<< 8)

/-- Loop body of get_trigger_offset: i counts up while below 8; fuel is
the number of remaining iterations (8 - i), so the loop exits with i = 8
when nothing matched and the function returns i & 0x7. -/
def get_trigger_offset_go (samples : Nat → Nat) (t : SigmaTrigger)
    (last_sample i : Nat) : Nat → Nat
  | 0 => i &&& 0x7
  | fuel + 1 =>
    let sample := window_sample samples i
    if trigger_match t sample last_sample then i &&& 0x7
    else get_trigger_offset_go samples t sample (i + 1) fuel

/-- Software trigger offset search over the next 8 decoded samples
(protocol.c get_trigger_offset). -/
def get_trigger_offset (samples : Nat → Nat) (last_sample : Nat)
    (t : SigmaTrigger) : Nat :=
  get_trigger_offset_go samples t last_sample 0 8

/-- Previous sample against which window sample i is tested: the incoming
last_sample for i = 0, afterwards window sample i - 1. -/
def window_last (samples : Nat → Nat) (last_sample : Nat) : Nat → Nat
  | 0 => last_sample
  | i + 1 => window_sample samples i

lemma get_trigger_offset_go_spec (samples : Nat → Nat) (t : SigmaTrigger)
    (last0 : Nat) :
    ∀ fuel i,
      get_trigger_offset_go samples t (window_last samples last0 i) i fuel =
        match (List.range' i fuel).find? (fun n =>
            trigger_match t (window_sample samples n)
              (window_last samples last0 n)) with
        | some n => n &&& 0x7
        | none => (i + fuel) &&& 0x7 := by
  intro fuel
  induction fuel with
  | zero => intro i; simp [get_trigger_offset_go, List.range']
  | succ fuel ih =>
    intro i
    rw [List.range']
    simp only [get_trigger_offset_go]
    by_cases h : trigger_match t (window_sample samples i)
        (window_last samples last0 i)
    · rw [if_pos h]
      simp only [List.find?_cons, h]
    · have hb : trigger_match t (window_sample samples i)
          (window_last samples last0 i) = false := by
        simpa using h
      rw [if_neg h]
      simp only [List.find?_cons, hb]
      have hrec := ih (i + 1)
      have hwl : window_last samples last0 (i + 1) = window_sample samples i := rfl
      rw [hwl] at hrec
      rw [hrec]
      have harith : i + 1 + fuel = i + (fuel + 1) := by omega
      rw [harith]

/-- Claim C2 (amended): get_trigger_offset returns the first index i in
[0..8) whose sample satisfies all three conditions (value/mask match,
rising edges fire, falling edges fire, each tested against the previous
sample); when none of the 8 samples match it returns 0, since the loop
counter 8 masked with 0x7 is 0 (not 7 as claimed). -/
theorem get_trigger_offset_first_match (samples : Nat → Nat)
    (last_sample : Nat) (t : SigmaTrigger) :
    get_trigger_offset samples last_sample t =
      (((List.range 8).find? (fun n =>
        trigger_match t (window_sample samples n)
          (window_last samples last_sample n))).getD 0) := by
  have h := get_trigger_offset_go_spec samples t last_sample 8 0
  rw [List.range_eq_range']
  show get_trigger_offset_go samples t (window_last samples last_sample 0) 0 8 = _
  rw [h]
  cases hf : (List.range' 0 8).find? (fun n =>
      trigger_match t (window_sample samples n)
        (window_last samples last_sample n)) with
  | none => rfl
  | some n =>
    have hmem := List.mem_range'_1.mp (List.mem_of_find?_eq_some hf)
    have hn : n < 8 := by omega
    show n &&& 0x7 = n
    have h7 : (0x7 : Nat) = 2 ^ 3 - 1 := by norm_num
    rw [h7, Nat.and_pow_two_sub_one_eq_mod, Nat.mod_eq_of_lt hn]

/-- Claim C2 counterexample: with a trigger requiring channel 0 high and
an all-zero window none of the 8 samples match, yet get_trigger_offset
returns 0, not 7 as the claim states. -/
theorem get_trigger_offset_counterexample :
    ((List.range 8).all (fun n =>
      !(trigger_match ⟨1, 1, 0, 0⟩ (window_sample (fun _ => 0) n)
        (window_last (fun _ => 0) 0 n)))) = true ∧
    get_trigger_offset (fun _ => 0) 0 ⟨1, 1, 0, 0⟩ = 0 ∧
    get_trigger_offset (fun _ => 0) 0 ⟨1, 1, 0, 0⟩ ≠ 7 := by
  refine ⟨by decide, by decide, by decide⟩

/-- Bitbang pin assignment: CCLK on D0 (protocol.c BB_PIN_CCLK). -/
def BB_PIN_CCLK : Nat := 1 <<< 0

/-- Bitbang pin assignment: PROG on D1 (protocol.c BB_PIN_PROG). -/
def BB_PIN_PROG : Nat := 1 <<< 1

/-- Bitbang pin assignment: D2, part of the suicide sequence. -/
def BB_PIN_D2 : Nat := 1 <<< 2

/-- Bitbang pin assignment: D3, part of the suicide sequence. -/
def BB_PIN_D3 : Nat := 1 <<< 3

/-- Bitbang pin assignment: D4, part of the suicide sequence. -/
def BB_PIN_D4 : Nat := 1 <<< 4

/-- Bitbang pin assignment: INIT on D5, the only input pin. -/
def BB_PIN_INIT : Nat := 1 <<< 5

/-- Bitbang pin assignment: DIN on D6 (protocol.c BB_PIN_DIN). -/
def BB_PIN_DIN : Nat := 1 <<< 6

/-- Bitbang pin assignment: D7, part of the suicide sequence. -/
def BB_PIN_D7 : Nat := 1 <<< 7

/-- Bitbang baudrate of 750 kbps (protocol.c BB_BITRATE). -/
def BB_BITRATE : Nat := 750 * 1000

/-- Bitbang pin mask: all pins except INIT_B (protocol.c BB_PINMASK). -/
def BB_PINMASK : Nat := 0xff &&& (0xff ^^^ BB_PIN_INIT)

/-- One update of the descrambler's 32-bit LCG state
(imm = (imm + 0xa853753) % 177 + imm * 0x8034052 in sigma_fw_2_bitbang,
uint32 arithmetic; both occurrences of imm read the pre-update state). -/
def imm_step (imm : Nat) : Nat :=
  ((imm + 0xa853753) % 2 ^ 32 % 177 + imm * 0x8034052) % 2 ^ 32

/-- State sequence of the descrambler: state 0 is the seed 0x3f6df2ab and
each following state applies imm_step. -/
def imm_seq : Nat → Nat
  | 0 => 0x3f6df2ab
  | n + 1 => imm_step (imm_seq n)

/-- Descrambling loop of sigma_fw_2_bitbang: each file byte is XORed with
the low 8 bits of the freshly updated LCG state. -/
def sigma_fw_descramble (imm : Nat) : List Nat → List Nat
  | [] => []
  | b :: rest =>
    let imm2 := imm_step imm
    (b ^^^ (imm2 &&& 0xff)) :: sigma_fw_descramble imm2 rest

/-- Expansion of one descrambled byte into bitbang samples, MSB first
(inner while loop of sigma_fw_2_bitbang): for each bit two samples, the
DIN level with CCLK set and then the DIN level alone; the mask starts at
0x80 and halves until zero. -/
def sigma_bb_byte (byte mask : Nat) : List Nat :=
  if mask = 0 then []
  else
    let v := if byte &&& mask != 0 then BB_PIN_DIN else 0
    (v ||| BB_PIN_CCLK) :: v :: sigma_bb_byte byte (mask >>> 1)
termination_by mask
decreasing_by rw [Nat.shiftRight_one]; omega

/-- Firmware-to-bitbang transformation (protocol.c sigma_fw_2_bitbang):
descramble the file content with the LCG, then expand every byte into
16 bitbang samples. -/
def sigma_fw_2_bitbang (fw : List Nat) : List Nat :=
  (sigma_fw_descramble 0x3f6df2ab fw).flatMap (fun byte => sigma_bb_byte byte 0x80)

lemma and_pow_bne_zero (x m : Nat) : (x &&& 2 ^ m != 0) = x.testBit m := by
  have h : (2 : Nat) ^ m = 1 <<< m := by rw [Nat.shiftLeft_eq, one_mul]
  rw [h, and_one_shift_bne_zero]

lemma sigma_bb_byte_expand (b : Nat) :
    sigma_bb_byte b 0x80 =
      [(if b.testBit 7 then BB_PIN_DIN else 0) ||| BB_PIN_CCLK,
       (if b.testBit 7 then BB_PIN_DIN else 0),
       (if b.testBit 6 then BB_PIN_DIN else 0) ||| BB_PIN_CCLK,
       (if b.testBit 6 then BB_PIN_DIN else 0),
       (if b.testBit 5 then BB_PIN_DIN else 0) ||| BB_PIN_CCLK,
       (if b.testBit 5 then BB_PIN_DIN else 0),
       (if b.testBit 4 then BB_PIN_DIN else 0) ||| BB_PIN_CCLK,
       (if b.testBit 4 then BB_PIN_DIN else 0),
       (if b.testBit 3 then BB_PIN_DIN else 0) ||| BB_PIN_CCLK,
       (if b.testBit 3 then BB_PIN_DIN else 0),
       (if b.testBit 2 then BB_PIN_DIN else 0) ||| BB_PIN_CCLK,
       (if b.testBit 2 then BB_PIN_DIN else 0),
       (if b.testBit 1 then BB_PIN_DIN else 0) ||| BB_PIN_CCLK,
       (if b.testBit 1 then BB_PIN_DIN else 0),
       (if b.testBit 0 then BB_PIN_DIN else 0) ||| BB_PIN_CCLK,
       (if b.testBit 0 then BB_PIN_DIN else 0)] := by
  have h128 : (b &&& 128 != 0) = b.testBit 7 := by
    rw [(by norm_num : (128 : Nat) = 2 ^ 7), and_pow_bne_zero]
  have h64 : (b &&& 64 != 0) = b.testBit 6 := by
    rw [(by norm_num : (64 : Nat) = 2 ^ 6), and_pow_bne_zero]
  have h32 : (b &&& 32 != 0) = b.testBit 5 := by
    rw [(by norm_num : (32 : Nat) = 2 ^ 5), and_pow_bne_zero]
  have h16 : (b &&& 16 != 0) = b.testBit 4 := by
    rw [(by norm_num : (16 : Nat) = 2 ^ 4), and_pow_bne_zero]
  have h8 : (b &&& 8 != 0) = b.testBit 3 := by
    rw [(by norm_num : (8 : Nat) = 2 ^ 3), and_pow_bne_zero]
  have h4 : (b &&& 4 != 0) = b.testBit 2 := by
    rw [(by norm_num : (4 : Nat) = 2 ^ 2), and_pow_bne_zero]
  have h2 : (b &&& 2 != 0) = b.testBit 1 := by
    rw [(by norm_num : (2 : Nat) = 2 ^ 1), and_pow_bne_zero]
  have h1 : (b &&& 1 != 0) = b.testBit 0 := by
    rw [(by norm_num : (1 : Nat) = 2 ^ 0), and_pow_bne_zero]
  rw [sigma_bb_byte, (by decide : (128 : Nat) >>> 1 = 64),
    sigma_bb_byte, (by decide : (64 : Nat) >>> 1 = 32),
    sigma_bb_byte, (by decide : (32 : Nat) >>> 1 = 16),
    sigma_bb_byte, (by decide : (16 : Nat) >>> 1 = 8),
    sigma_bb_byte, (by decide : (8 : Nat) >>> 1 = 4),
    sigma_bb_byte, (by decide : (4 : Nat) >>> 1 = 2),
    sigma_bb_byte, (by decide : (2 : Nat) >>> 1 = 1),
    sigma_bb_byte, (by decide : (1 : Nat) >>> 1 = 0),
    sigma_bb_byte]
  rw [h128, h64, h32, h16, h8, h4, h2, h1]
  norm_num

lemma sigma_bb_byte_length (b : Nat) : (sigma_bb_byte b 0x80).length = 16 := by
  rw [sigma_bb_byte_expand]
  rfl

lemma sigma_fw_descramble_length (imm : Nat) (l : List Nat) :
    (sigma_fw_descramble imm l).length = l.length := by
  induction l generalizing imm with
  | nil => rfl
  | cons b rest ih => simp [sigma_fw_descramble, ih]

lemma sigma_fw_descramble_getD (l : List Nat) :
    ∀ n k, k < l.length →
      (sigma_fw_descramble (imm_seq n) l).getD k 0
        = l.getD k 0 ^^^ (imm_seq (n + k + 1) &&& 0xff) := by
  induction l with
  | nil => intro n k hk; simp at hk
  | cons b rest ih =>
    intro n k hk
    cases k with
    | zero =>
      show (sigma_fw_descramble (imm_seq n) (b :: rest)).getD 0 0 = _
      simp only [sigma_fw_descramble, List.getD_cons_zero]
      rfl
    | succ k =>
      have h := ih (n + 1) k (by simpa using hk)
      show (sigma_fw_descramble (imm_seq n) (b :: rest)).getD (k + 1) 0 = _
      simp only [sigma_fw_descramble, List.getD_cons_succ]
      have hseq : imm_step (imm_seq n) = imm_seq (n + 1) := rfl
      rw [hseq, h]
      have harith : n + 1 + k + 1 = n + (k + 1) + 1 := by omega
      rw [harith]

/-- Claim C7: sigma_fw_2_bitbang descrambles byte k of the firmware file by
XORing it with the low 8 bits of the (k+1)-th state of the LCG sequence
seeded with 0x3f6df2ab, then expands each descrambled byte MSB-first into
two bitbang samples per bit, the DIN level with CCLK set followed by the
DIN level alone, yielding exactly 2 * 8 * L output bytes. -/
theorem sigma_fw_2_bitbang_spec (fw : List Nat) (k bi : Nat)
    (hk : k < fw.length) (hbi : bi < 8) :
    (sigma_fw_2_bitbang fw).length = 2 * 8 * fw.length ∧
    (sigma_fw_2_bitbang fw).getD (2 * (8 * k + bi)) 0
      = ((if (fw.getD k 0 ^^^ (imm_seq (k + 1) &&& 0xff)).testBit (7 - bi)
          then BB_PIN_DIN else 0) ||| BB_PIN_CCLK) ∧
    (sigma_fw_2_bitbang fw).getD (2 * (8 * k + bi) + 1) 0
      = (if (fw.getD k 0 ^^^ (imm_seq (k + 1) &&& 0xff)).testBit (7 - bi)
          then BB_PIN_DIN else 0) := by
  have hkd : k < (sigma_fw_descramble 0x3f6df2ab fw).length := by
    rw [sigma_fw_descramble_length]
    exact hk
  have hd : (sigma_fw_descramble 0x3f6df2ab fw).getD k 0
      = fw.getD k 0 ^^^ (imm_seq (k + 1) &&& 0xff) := by
    have h := sigma_fw_descramble_getD fw 0 k hk
    have harith : 0 + k + 1 = k + 1 := by omega
    rw [harith] at h
    exact h
  refine ⟨?_, ?_, ?_⟩
  · unfold sigma_fw_2_bitbang
    rw [flatMap_length_const _ 16 sigma_bb_byte_length, sigma_fw_descramble_length]
  · unfold sigma_fw_2_bitbang
    rw [(by ring : 2 * (8 * k + bi) = 16 * k + 2 * bi),
      flatMap_getD_const _ 16 sigma_bb_byte_length _ k (2 * bi) hkd (by omega),
      hd, sigma_bb_byte_expand]
    interval_cases bi <;> simp
  · unfold sigma_fw_2_bitbang
    rw [(by ring : 2 * (8 * k + bi) + 1 = 16 * k + (2 * bi + 1)),
      flatMap_getD_const _ 16 sigma_bb_byte_length _ k (2 * bi + 1) hkd (by omega),
      hd, sigma_bb_byte_expand]
    interval_cases bi <;> simp

/-- Witness for claim C7's theorem on the one-byte file [0] at bit 0. -/
theorem sigma_fw_2_bitbang_spec_witness :
    (sigma_fw_2_bitbang [0]).length = 2 * 8 * ([0] : List Nat).length ∧
    (sigma_fw_2_bitbang [0]).getD (2 * (8 * 0 + 0)) 0
      = ((if ((List.getD [0] 0 0) ^^^ (imm_seq (0 + 1) &&& 0xff)).testBit (7 - 0)
          then BB_PIN_DIN else 0) ||| BB_PIN_CCLK) ∧
    (sigma_fw_2_bitbang [0]).getD (2 * (8 * 0 + 0) + 1) 0
      = (if ((List.getD [0] 0 0) ^^^ (imm_seq (0 + 1) &&& 0xff)).testBit (7 - 0)
          then BB_PIN_DIN else 0) :=
  sigma_fw_2_bitbang_spec [0] 0 0 (by decide) (by decide)

/-- Modelled from the spec: per-channel match kinds of the session trigger
model (SR_TRIGGER_* constants; the libsigrok header is not among the given
sources). The extra constructor stands for any match type the driver does
not handle in the basic path. -/
inductive SrTriggerMatchType where
  | zero
  | one
  | rising
  | falling
  | edge
deriving DecidableEq, Repr

/-- One per-channel match of the session trigger model: channel enabled
flag, channel index, and the requested match type. All stages of the model
are walked uniformly by sigma_convert_trigger, so the matches are given as
one flat list. -/
structure TriggerMatchEntry where
  enabled : Bool
  idx : Nat
  mtype : SrTriggerMatchType
deriving DecidableEq, Repr

/-- Folding loop of sigma_convert_trigger (protocol.c) over the matches.
The accumulator carries the count of edge triggers seen (trigger_set) and
the partially built sigma_trigger; the mask fields are uint16. At fast
rates a second trigger or a non-edge match errors out; at basic rates
ONE/ZERO fold into simplevalue/simplemask and an edge match beyond the
first trips the trigger_set > 1 check. -/
def sigma_convert_trigger_go (fast : Bool) :
    List TriggerMatchEntry → Nat → SigmaTrigger → SrStatus × SigmaTrigger
  | [], _, t => (.ok, t)
  | m :: ms, trigger_set, t =>
    if !m.enabled then sigma_convert_trigger_go fast ms trigger_set t
    else
      let channelbit := 1 <<< m.idx
      if fast then
        if trigger_set ≠ 0 then (.err, t)
        else if m.mtype = .falling then
          sigma_convert_trigger_go fast ms (trigger_set + 1)
            { t with fallingmask := (t.fallingmask ||| channelbit) % 2 ^ 16 }
        else if m.mtype = .rising then
          sigma_convert_trigger_go fast ms (trigger_set + 1)
            { t with risingmask := (t.risingmask ||| channelbit) % 2 ^ 16 }
        else (.err, t)
      else
        let t2 :=
          if m.mtype = .one then
            { t with simplevalue := (t.simplevalue ||| channelbit) % 2 ^ 16,
                     simplemask := (t.simplemask ||| channelbit) % 2 ^ 16 }
          else if m.mtype = .zero then
            { t with simplevalue :=
                       t.simplevalue &&& (0xffff ^^^ (channelbit &&& 0xffff)),
                     simplemask := (t.simplemask ||| channelbit) % 2 ^ 16 }
          else if m.mtype = .falling then
            { t with fallingmask := (t.fallingmask ||| channelbit) % 2 ^ 16 }
          else if m.mtype = .rising then
            { t with risingmask := (t.risingmask ||| channelbit) % 2 ^ 16 }
          else t
        let ts2 :=
          if m.mtype = .falling ∨ m.mtype = .rising then trigger_set + 1
          else trigger_set
        if ts2 > 1 then (.err, t2)
        else sigma_convert_trigger_go fast ms ts2 t2

/-- Conversion of the session's trigger model into the low-level trigger
configuration (protocol.c sigma_convert_trigger): the trigger struct is
zeroed first; with no trigger model the call succeeds immediately; the
fast path applies at cur_samplerate of 100 MHz and above. -/
def sigma_convert_trigger (cur_samplerate : Nat)
    (trigger : Option (List TriggerMatchEntry)) : SrStatus × SigmaTrigger :=
  match trigger with
  | none => (.ok, ⟨0, 0, 0, 0⟩)
  | some ms =>
    sigma_convert_trigger_go (decide (cur_samplerate ≥ 100000000)) ms 0 ⟨0, 0, 0, 0⟩

/-- Tally of enabled rising/falling edge matches in a trigger model. -/
def edgeTally (ms : List TriggerMatchEntry) : Nat :=
  (ms.filter (fun m => m.enabled
    && (m.mtype == SrTriggerMatchType.rising
        || m.mtype == SrTriggerMatchType.falling))).length

lemma convert_go_ok_iff (ms : List TriggerMatchEntry) :
    ∀ ts t, ts ≤ 1 →
      ((sigma_convert_trigger_go false ms ts t).1 = SrStatus.ok ↔
        ts + edgeTally ms ≤ 1) := by
  induction ms with
  | nil =>
    intro ts t hts
    simp [sigma_convert_trigger_go, edgeTally]
    omega
  | cons m ms ih =>
    intro ts t hts
    by_cases he : m.enabled = true
    · cases hmt : m.mtype
      ·
        simp only [sigma_convert_trigger_go, he, hmt, Bool.not_true,
          Bool.false_eq_true, if_false, if_true, reduceCtorEq, reduceIte,
          true_or, false_or, or_self]
        rw [if_neg (by omega : ¬ ts > 1)]
        rw [ih ts _ hts]
        simp [edgeTally, List.filter_cons, he, hmt]
      ·
        simp only [sigma_convert_trigger_go, he, hmt, Bool.not_true,
          Bool.false_eq_true, if_false, if_true, reduceCtorEq, reduceIte,
          true_or, false_or, or_self]
        rw [if_neg (by omega : ¬ ts > 1)]
        rw [ih ts _ hts]
        simp [edgeTally, List.filter_cons, he, hmt]
      ·
        simp only [sigma_convert_trigger_go, he, hmt, Bool.not_true,
          Bool.false_eq_true, if_false, if_true, reduceCtorEq, reduceIte,
          true_or, false_or, or_self]
        have htally : edgeTally (m :: ms) = 1 + edgeTally ms := by
          simp [edgeTally, List.filter_cons, he, hmt]
          omega
        interval_cases ts
        · rw [if_neg (by omega : ¬ 0 + 1 > 1)]
          rw [(by omega : (0 : Nat) + 1 = 1)]
          rw [ih 1 _ (by omega)]
          rw [htally]
          omega
        · rw [if_pos (by omega : 1 + 1 > 1)]
          rw [htally]
          simp
      ·
        simp only [sigma_convert_trigger_go, he, hmt, Bool.not_true,
          Bool.false_eq_true, if_false, if_true, reduceCtorEq, reduceIte,
          true_or, false_or, or_self]
        have htally : edgeTally (m :: ms) = 1 + edgeTally ms := by
          simp [edgeTally, List.filter_cons, he, hmt]
          omega
        interval_cases ts
        · rw [if_neg (by omega : ¬ 0 + 1 > 1)]
          rw [(by omega : (0 : Nat) + 1 = 1)]
          rw [ih 1 _ (by omega)]
          rw [htally]
          omega
        · rw [if_pos (by omega : 1 + 1 > 1)]
          rw [htally]
          simp
      ·
        simp only [sigma_convert_trigger_go, he, hmt, Bool.not_true,
          Bool.false_eq_true, if_false, if_true, reduceCtorEq, reduceIte,
          true_or, false_or, or_self]
        rw [if_neg (by omega : ¬ ts > 1)]
        rw [ih ts _ hts]
        simp [edgeTally, List.filter_cons, he, hmt]
    · have he2 : m.enabled = false := by
        revert he
        cases m.enabled <;> simp
      simp only [sigma_convert_trigger_go, he2, Bool.not_false, if_true]
      rw [ih ts t hts]
      simp [edgeTally, List.filter_cons, he2]

lemma testBit_or_mod16 (x b c : Nat) (hc : c < 16) :
    ((x ||| b) % 2 ^ 16).testBit c = (x.testBit c || b.testBit c) := by
  rw [Nat.testBit_mod_two_pow, Nat.testBit_or]
  simp [hc]

lemma testBit_one_shift_self (c : Nat) : (1 <<< c).testBit c = true := by
  rw [Nat.shiftLeft_eq, one_mul]
  exact Nat.testBit_two_pow_self

lemma step_mono_aux (x b c : Nat) (hc : c < 16) (hx : x.testBit c = true) :
    ((x ||| b) % 2 ^ 16).testBit c = true := by
  rw [testBit_or_mod16 _ _ _ hc, hx]
  rfl

lemma convert_go_mask_mono (ms : List TriggerMatchEntry) :
    ∀ ts t c, c < 16 →
      (t.risingmask.testBit c = true →
        (sigma_convert_trigger_go false ms ts t).2.risingmask.testBit c = true) ∧
      (t.fallingmask.testBit c = true →
        (sigma_convert_trigger_go false ms ts t).2.fallingmask.testBit c = true) := by
  induction ms with
  | nil => intro ts t c hc; exact ⟨id, id⟩
  | cons m ms ih =>
    intro ts t c hc
    by_cases he : m.enabled = true
    · cases hmt : m.mtype
      · simp only [sigma_convert_trigger_go, he, hmt, Bool.not_true,
          Bool.false_eq_true, if_false, if_true, reduceCtorEq, reduceIte,
          true_or, false_or, or_self]
        split
        · exact ⟨id, id⟩
        · refine ⟨fun hx => ?_, fun hx => ?_⟩
          · exact (ih ts _ c hc).1 hx
          · exact (ih ts _ c hc).2 hx
      · simp only [sigma_convert_trigger_go, he, hmt, Bool.not_true,
          Bool.false_eq_true, if_false, if_true, reduceCtorEq, reduceIte,
          true_or, false_or, or_self]
        split
        · exact ⟨id, id⟩
        · refine ⟨fun hx => ?_, fun hx => ?_⟩
          · exact (ih ts _ c hc).1 hx
          · exact (ih ts _ c hc).2 hx
      · simp only [sigma_convert_trigger_go, he, hmt, Bool.not_true,
          Bool.false_eq_true, if_false, if_true, reduceCtorEq, reduceIte,
          true_or, false_or, or_self]
        split
        · exact ⟨fun hx => step_mono_aux _ _ _ hc hx, id⟩
        · refine ⟨fun hx => ?_, fun hx => ?_⟩
          · exact (ih (ts + 1) _ c hc).1 (step_mono_aux _ _ _ hc hx)
          · exact (ih (ts + 1) _ c hc).2 hx
      · simp only [sigma_convert_trigger_go, he, hmt, Bool.not_true,
          Bool.false_eq_true, if_false, if_true, reduceCtorEq, reduceIte,
          true_or, false_or, or_self]
        split
        · exact ⟨id, fun hx => step_mono_aux _ _ _ hc hx⟩
        · refine ⟨fun hx => ?_, fun hx => ?_⟩
          · exact (ih (ts + 1) _ c hc).1 hx
          · exact (ih (ts + 1) _ c hc).2 (step_mono_aux _ _ _ hc hx)
      · simp only [sigma_convert_trigger_go, he, hmt, Bool.not_true,
          Bool.false_eq_true, if_false, if_true, reduceCtorEq, reduceIte,
          true_or, false_or, or_self]
        split
        · exact ⟨id, id⟩
        · refine ⟨fun hx => ?_, fun hx => ?_⟩
          · exact (ih ts _ c hc).1 hx
          · exact (ih ts _ c hc).2 hx
    · have he2 : m.enabled = false := by
        revert he
        cases m.enabled <;> simp
      simp only [sigma_convert_trigger_go, he2, Bool.not_false, if_true]
      exact ih ts t c hc

lemma convert_go_mask_set (ms : List TriggerMatchEntry) :
    ∀ ts t, (sigma_convert_trigger_go false ms ts t).1 = SrStatus.ok →
      ∀ m ∈ ms, m.enabled = true → m.idx < 16 →
        (m.mtype = SrTriggerMatchType.rising →
          (sigma_convert_trigger_go false ms ts t).2.risingmask.testBit m.idx
            = true) ∧
        (m.mtype = SrTriggerMatchType.falling →
          (sigma_convert_trigger_go false ms ts t).2.fallingmask.testBit m.idx
            = true) := by
  induction ms with
  | nil =>
    intro ts t hok m hm
    simp at hm
  | cons m0 ms ih =>
    intro ts t hok m hm he hidx
    rcases List.mem_cons.mp hm with rfl | hmem
    · constructor
      · intro hr
        simp only [sigma_convert_trigger_go, he, hr, Bool.not_true,
          Bool.false_eq_true, if_false, if_true, reduceCtorEq, reduceIte,
          true_or, false_or, or_self] at hok ⊢
        by_cases hts : ts + 1 > 1
        · rw [if_pos hts] at hok
          simp at hok
        · rw [if_neg hts] at hok ⊢
          refine (convert_go_mask_mono ms (ts + 1) _ m.idx hidx).1 ?_
          rw [testBit_or_mod16 _ _ _ hidx, testBit_one_shift_self]
          simp
      · intro hf
        simp only [sigma_convert_trigger_go, he, hf, Bool.not_true,
          Bool.false_eq_true, if_false, if_true, reduceCtorEq, reduceIte,
          true_or, false_or, or_self] at hok ⊢
        by_cases hts : ts + 1 > 1
        · rw [if_pos hts] at hok
          simp at hok
        · rw [if_neg hts] at hok ⊢
          refine (convert_go_mask_mono ms (ts + 1) _ m.idx hidx).2 ?_
          rw [testBit_or_mod16 _ _ _ hidx, testBit_one_shift_self]
          simp
    · by_cases he0 : m0.enabled = true
      · cases hmt : m0.mtype
        · simp only [sigma_convert_trigger_go, he0, hmt, Bool.not_true,
            Bool.false_eq_true, if_false, if_true, reduceCtorEq, reduceIte,
            true_or, false_or, or_self] at hok ⊢
          by_cases hts : ts > 1
          · rw [if_pos hts] at hok
            simp at hok
          · rw [if_neg hts] at hok ⊢
            exact ih ts _ hok m hmem he hidx
        · simp only [sigma_convert_trigger_go, he0, hmt, Bool.not_true,
            Bool.false_eq_true, if_false, if_true, reduceCtorEq, reduceIte,
            true_or, false_or, or_self] at hok ⊢
          by_cases hts : ts > 1
          · rw [if_pos hts] at hok
            simp at hok
          · rw [if_neg hts] at hok ⊢
            exact ih ts _ hok m hmem he hidx
        · simp only [sigma_convert_trigger_go, he0, hmt, Bool.not_true,
            Bool.false_eq_true, if_false, if_true, reduceCtorEq, reduceIte,
            true_or, false_or, or_self] at hok ⊢
          by_cases hts : ts + 1 > 1
          · rw [if_pos hts] at hok
            simp at hok
          · rw [if_neg hts] at hok ⊢
            exact ih (ts + 1) _ hok m hmem he hidx
        · simp only [sigma_convert_trigger_go, he0, hmt, Bool.not_true,
            Bool.false_eq_true, if_false, if_true, reduceCtorEq, reduceIte,
            true_or, false_or, or_self] at hok ⊢
          by_cases hts : ts + 1 > 1
          · rw [if_pos hts] at hok
            simp at hok
          · rw [if_neg hts] at hok ⊢
            exact ih (ts + 1) _ hok m hmem he hidx
        · simp only [sigma_convert_trigger_go, he0, hmt, Bool.not_true,
            Bool.false_eq_true, if_false, if_true, reduceCtorEq, reduceIte,
            true_or, false_or, or_self] at hok ⊢
          by_cases hts : ts > 1
          · rw [if_pos hts] at hok
            simp at hok
          · rw [if_neg hts] at hok ⊢
            exact ih ts _ hok m hmem he hidx
      · have he2 : m0.enabled = false := by
          revert he0
          cases m0.enabled <;> simp
        simp only [sigma_convert_trigger_go, he2, Bool.not_false, if_true] at hok ⊢
        exact ih ts t hok m hmem he hidx

/-- Claim C1 (amended): at samplerates of at most 50 MHz,
sigma_convert_trigger succeeds exactly when the tally of enabled
rising/falling edge channels is at most 1 (not 2: the second edge match
trips the trigger_set > 1 check and fails with an error), value/mask
(ONE/ZERO) matches on any number of channels being accepted; on success
each accepted edge channel's bit is recorded in risingmask respectively
fallingmask. -/
theorem sigma_convert_trigger_low_rate (rate : Nat) (hrate : rate ≤ 50000000)
    (ms : List TriggerMatchEntry) :
    ((sigma_convert_trigger rate (some ms)).1 = SrStatus.ok ↔ edgeTally ms ≤ 1) ∧
    (∀ m ∈ ms, m.enabled = true → m.idx < 16 →
      (sigma_convert_trigger rate (some ms)).1 = SrStatus.ok →
      (m.mtype = SrTriggerMatchType.rising →
        (sigma_convert_trigger rate (some ms)).2.risingmask.testBit m.idx = true) ∧
      (m.mtype = SrTriggerMatchType.falling →
        (sigma_convert_trigger rate (some ms)).2.fallingmask.testBit m.idx = true)) := by
  have hfast : decide (rate ≥ 100000000) = false := by
    simp only [decide_eq_false_iff_not, ge_iff_le, not_le]
    omega
  simp only [sigma_convert_trigger, hfast]
  constructor
  · have h := convert_go_ok_iff ms 0 ⟨0, 0, 0, 0⟩ (by norm_num)
    simpa using h
  · intro m hm he hidx hok
    exact convert_go_mask_set ms 0 ⟨0, 0, 0, 0⟩ hok m hm he hidx

/-- Claim C1 counterexample: at 50 MHz a trigger model with two enabled
rising-edge channels (tally 2, which the claim says must be accepted) is
rejected by sigma_convert_trigger with an error. -/
theorem sigma_convert_trigger_two_edges_rejected :
    edgeTally [⟨true, 0, SrTriggerMatchType.rising⟩,
      ⟨true, 1, SrTriggerMatchType.rising⟩] = 2 ∧
    (sigma_convert_trigger 50000000 (some [⟨true, 0, SrTriggerMatchType.rising⟩,
      ⟨true, 1, SrTriggerMatchType.rising⟩])).1 = SrStatus.err := by
  exact ⟨by decide, by decide⟩

/-- Witness for claim C1's amended theorem: a single rising edge on
channel 3 at 1 MHz is accepted and bit 3 of risingmask gets set. -/
theorem sigma_convert_trigger_low_rate_witness :
    ((sigma_convert_trigger 1000000
        (some [⟨true, 3, SrTriggerMatchType.rising⟩])).1 = SrStatus.ok ↔
      edgeTally [⟨true, 3, SrTriggerMatchType.rising⟩] ≤ 1) ∧
    (sigma_convert_trigger 1000000
      (some [⟨true, 3, SrTriggerMatchType.rising⟩])).2.risingmask.testBit 3
      = true := by
  have h := sigma_convert_trigger_low_rate 1000000 (by norm_num)
    [⟨true, 3, SrTriggerMatchType.rising⟩]
  refine ⟨h.1, ?_⟩
  exact (h.2 ⟨true, 3, SrTriggerMatchType.rising⟩ (by simp) rfl (by norm_num)
    (by decide)).1 rfl

/-- Acquisition state machine states (modelled from the spec; the enum
lives in protocol.h which is not among the given sources). -/
inductive SigmaState where
  | idle
  | capture
  | stopping
  | download
deriving DecidableEq, Repr

/-- Modelled from the spec: the attributes of the per-device context
(struct dev_context in protocol.h, not among the given sources) touched by
the verified operations. cur_firmware is an int, -1 meaning none. -/
structure DevContext where
  cur_firmware : Int
  cur_samplerate : Nat
  num_channels : Nat
  samples_per_event : Nat
  state : SigmaState
  limit_samples : Nat
  limit_msec : Nat
deriving DecidableEq, Repr

/-- Operations performed on the byte-link cable, recorded as a trace. -/
inductive CableOp where
  | setBitmode (pinmask mode : Nat)
  | setBaudrate (rate : Nat)
  | writeBytes (data : List Nat)
  | readBytes (n : Nat)
  | purge
deriving DecidableEq, Repr

/-- Modelled from the spec: the libftdi reset bitmode selector (external
library constant). -/
def BITMODE_RESET : Nat := 0

/-- Modelled from the spec: the libftdi asynchronous bitbang mode selector
(external library constant). -/
def BITMODE_BITBANG : Nat := 1

/-- Modelled from the spec: responses of the external cable and resource
loader consumed during a firmware upload: outcomes of the three bitmode or
baudrate changes, the bytes produced by the INIT_B polling reads (none
meaning a read error), the firmware file content (none meaning the load
failed), the number of stale bytes drained after leaving bitbang mode, and
the three reply bytes of the LA-mode handshake (none meaning a short or
failed read). -/
structure FtdiEnv where
  bitmode_bb_ok : Bool
  baud_ok : Bool
  init_polls : List (Option Nat)
  fw : Option (List Nat)
  bitmode_reset_ok : Bool
  drain_count : Nat
  la_reply : Option (List Nat)

/-- The 8-byte suicide pattern that terminates regular FPGA execution
(protocol.c sigma_fpga_init_bitbang). -/
def suicide_seq : List Nat :=
  [BB_PIN_D7 ||| BB_PIN_D2, BB_PIN_D7 ||| BB_PIN_D2, BB_PIN_D7 ||| BB_PIN_D3,
   BB_PIN_D7 ||| BB_PIN_D2, BB_PIN_D7 ||| BB_PIN_D3, BB_PIN_D7 ||| BB_PIN_D2,
   BB_PIN_D7 ||| BB_PIN_D3, BB_PIN_D7 ||| BB_PIN_D2]

/-- The 10-byte PROG pulse array (protocol.c sigma_fpga_init_bitbang). -/
def init_array : List Nat :=
  [BB_PIN_CCLK, BB_PIN_CCLK ||| BB_PIN_PROG, BB_PIN_CCLK ||| BB_PIN_PROG,
   BB_PIN_CCLK, BB_PIN_CCLK, BB_PIN_CCLK, BB_PIN_CCLK, BB_PIN_CCLK,
   BB_PIN_CCLK, BB_PIN_CCLK]

/-- The INIT_B polling loop of sigma_fpga_init_bitbang: up to 10 one-byte
reads, 10 ms apart; success when the read byte has INIT_B set, timeout
after the retries are exhausted, an error when a read fails. -/
def sigma_init_poll : List (Option Nat) → Nat → SrStatus × List CableOp
  | _, 0 => (.err_timeout, [])
  | [], _ + 1 => (.err_io, [CableOp.readBytes 1])
  | none :: _, _ + 1 => (.err_io, [CableOp.readBytes 1])
  | some b :: rest, retries + 1 =>
    if b &&& BB_PIN_INIT ≠ 0 then (.ok, [CableOp.readBytes 1])
    else
      let r := sigma_init_poll rest retries
      (r.1, CableOp.readBytes 1 :: r.2)

/-- FPGA configuration-mode entry (protocol.c sigma_fpga_init_bitbang):
four suicide bursts, the PROG pulse array, a purge, then the INIT_B
polling loop. -/
def sigma_fpga_init_bitbang (env : FtdiEnv) : SrStatus × List CableOp :=
  let r := sigma_init_poll env.init_polls 10
  (r.1,
    [CableOp.writeBytes suicide_seq, CableOp.writeBytes suicide_seq,
     CableOp.writeBytes suicide_seq, CableOp.writeBytes suicide_seq,
     CableOp.writeBytes init_array, CableOp.purge] ++ r.2)

/-- Modelled from the spec: the identification register address
(protocol.h not among the given sources). -/
def READ_ID : Nat := 0

/-- Modelled from the spec: the scratch test register address. -/
def WRITE_TEST : Nat := 9

/-- Modelled from the spec: the mode register address. -/
def WRITE_MODE : Nat := 3

/-- Modelled from the spec: the SDRAMINIT flag of the mode register. -/
def WMR_SDRAMINIT : Nat := 1

/-- The fixed LA-mode handshake command sequence (protocol.c
sigma_fpga_init_la): read the ID register, write 0x55 to the scratch
register and read back, write 0xaa and read back, then write SDRAMINIT to
the mode register. -/
def logic_mode_start : List Nat :=
  [REG_ADDR_LOW ||| (READ_ID &&& 0xf),
   REG_ADDR_HIGH ||| (READ_ID >>> 4),
   REG_READ_ADDR,
   REG_ADDR_LOW ||| (WRITE_TEST &&& 0xf),
   REG_DATA_LOW ||| 0x5,
   REG_DATA_HIGH_WRITE ||| 0x5,
   REG_READ_ADDR,
   REG_DATA_LOW ||| 0xa,
   REG_DATA_HIGH_WRITE ||| 0xa,
   REG_READ_ADDR,
   REG_ADDR_LOW ||| (WRITE_MODE &&& 0xf),
   REG_DATA_LOW ||| (WMR_SDRAMINIT &&& 0xf),
   REG_DATA_HIGH_WRITE ||| (WMR_SDRAMINIT >>> 4)]

/-- LA-mode handshake (protocol.c sigma_fpga_init_la): send the command
sequence, read the 3 response bytes, expect 0xa6, 0x55, 0xaa; any short
read or mismatch fails. -/
def sigma_fpga_init_la (env : FtdiEnv) : SrStatus × List CableOp :=
  let ops := [CableOp.writeBytes logic_mode_start, CableOp.readBytes 3]
  match env.la_reply with
  | none => (.err, ops)
  | some r =>
    if r.length ≠ 3 then (.err, ops)
    else if r.getD 0 0 ≠ 0xa6 ∨ r.getD 1 0 ≠ 0x55 ∨ r.getD 2 0 ≠ 0xaa then
      (.err, ops)
    else (.ok, ops)

/-- Firmware upload (protocol.c upload_firmware): a cache hit on the
current firmware slot short-circuits to success; otherwise the cable is
put into bitbang mode at 750 kbps, the FPGA is forced into configuration
mode, the netlist is transformed and streamed, bitbang mode is left, the
input is drained, the LA handshake runs, and only then is the cached slot
updated. The result carries the status, the updated device context, and
the trace of cable operations. -/
def upload_firmware (env : FtdiEnv) (firmware_idx : Int)
    (devc : DevContext) : SrStatus × DevContext × List CableOp :=
  if devc.cur_firmware = firmware_idx then (.ok, devc, [])
  else
    let ops1 := [CableOp.setBitmode BB_PINMASK BITMODE_BITBANG]
    if ¬ env.bitmode_bb_ok then (.err, devc, ops1)
    else
      let ops2 := ops1 ++ [CableOp.setBaudrate BB_BITRATE]
      if ¬ env.baud_ok then (.err, devc, ops2)
      else
        let bres := sigma_fpga_init_bitbang env
        let ops3 := ops2 ++ bres.2
        if bres.1 ≠ .ok then (bres.1, devc, ops3)
        else
          match env.fw with
          | none => (.err_io, devc, ops3)
          | some fwc =>
            let buf := sigma_fw_2_bitbang fwc
            let ops4 := ops3 ++ [CableOp.writeBytes buf,
              CableOp.setBitmode 0 BITMODE_RESET]
            if ¬ env.bitmode_reset_ok then (.err, devc, ops4)
            else
              let ops5 := ops4 ++ [CableOp.purge]
                ++ List.replicate (env.drain_count + 1) (CableOp.readBytes 1)
              let lres := sigma_fpga_init_la env
              let ops6 := ops5 ++ lres.2
              if lres.1 ≠ .ok then (lres.1, devc, ops6)
              else (.ok, { devc with cur_firmware := firmware_idx }, ops6)

lemma upload_firmware_hit (env : FtdiEnv) (idx : Int) (devc : DevContext)
    (h : devc.cur_firmware = idx) :
    upload_firmware env idx devc = (.ok, devc, []) := by
  simp [upload_firmware, h]

lemma upload_firmware_devc (env : FtdiEnv) (idx : Int) (devc : DevContext) :
    ((upload_firmware env idx devc).1 ≠ .ok →
      (upload_firmware env idx devc).2.1 = devc) ∧
    ((upload_firmware env idx devc).1 = .ok →
      (upload_firmware env idx devc).2.1 = devc ∨
      (upload_firmware env idx devc).2.1 = { devc with cur_firmware := idx }) := by
  by_cases h0 : devc.cur_firmware = idx
  · simp [upload_firmware, h0]
  · by_cases h1 : env.bitmode_bb_ok
    · by_cases h2 : env.baud_ok
      · by_cases h3 : (sigma_fpga_init_bitbang env).1 = SrStatus.ok
        · cases hfw : env.fw with
          | none => simp [upload_firmware, h0, h1, h2, h3, hfw]
          | some fwc =>
            by_cases h4 : env.bitmode_reset_ok
            · by_cases h5 : (sigma_fpga_init_la env).1 = SrStatus.ok
              · simp [upload_firmware, h0, h1, h2, h3, hfw, h4, h5]
              · simp [upload_firmware, h0, h1, h2, h3, hfw, h4, h5]
            · simp [upload_firmware, h0, h1, h2, h3, hfw, h4]
        · simp [upload_firmware, h0, h1, h2, h3]
      · simp [upload_firmware, h0, h1, h2]
    · simp [upload_firmware, h0, h1]

/-- Claim C8: upload_firmware is idempotent on a cache hit: whenever the
device context's current firmware slot equals the requested slot, the call
returns success immediately, performs no cable operation whatsoever (no
bitmode change, no baudrate change, no byte-link write or read, no purge),
and leaves the device context unchanged. -/
theorem upload_firmware_cache_hit (env : FtdiEnv) (idx : Int)
    (devc : DevContext) (h : devc.cur_firmware = idx) :
    upload_firmware env idx devc = (.ok, devc, []) :=
  upload_firmware_hit env idx devc h

/-- Witness for claim C8's theorem: a cache hit on slot 0. -/
theorem upload_firmware_cache_hit_witness :
    upload_firmware ⟨true, true, [], none, true, 0, none⟩ 0
      ⟨0, 1000000, 16, 1, SigmaState.idle, 0, 0⟩ =
      (.ok, ⟨0, 1000000, 16, 1, SigmaState.idle, 0, 0⟩, []) :=
  upload_firmware_cache_hit ⟨true, true, [], none, true, 0, none⟩ 0
    ⟨0, 1000000, 16, 1, SigmaState.idle, 0, 0⟩ rfl

/-- Firmware slot selected for a supported samplerate: slot 0 up to
50 MHz, slot 1 at 100 MHz, slot 2 at 200 MHz (protocol.c
sigma_set_samplerate). -/
def slotFor (samplerate : Nat) : Int :=
  if samplerate ≤ 50000000 then 0
  else if samplerate = 100000000 then 1
  else 2

/-- Samplerate configuration (protocol.c sigma_set_samplerate): rejects a
rate that is not in the fixed table; otherwise uploads the firmware slot
for the rate's range and, on success only, updates cur_samplerate,
num_channels (16 up to 50 MHz, 8 at 100 MHz, 4 at 200 MHz),
samples_per_event = 16 / num_channels, moves the state to Idle, and
recomputes limit_msec when a sample limit is set. -/
def sigma_set_samplerate (env : FtdiEnv) (devc : DevContext)
    (samplerate : Nat) : SrStatus × DevContext :=
  if samplerate ∉ samplerates then (.err_samplerate, devc)
  else
    let step :=
      if samplerate ≤ 50000000 then
        let r := upload_firmware env 0 devc
        (r.1, r.2.1, 16)
      else if samplerate = 100000000 then
        let r := upload_firmware env 1 devc
        (r.1, r.2.1, 8)
      else if samplerate = 200000000 then
        let r := upload_firmware env 2 devc
        (r.1, r.2.1, 4)
      else (.ok, devc, devc.num_channels)
    let ret := step.1
    let devc1 := step.2.1
    let num_channels := step.2.2
    let devc2 :=
      if ret = .ok then
        { devc1 with num_channels := num_channels,
                     cur_samplerate := samplerate,
                     samples_per_event := 16 / num_channels,
                     state := .idle }
      else devc1
    let devc3 :=
      if ret = .ok ∧ devc2.limit_samples ≠ 0 then
        let msecs := sigma_limit_samples_to_msec devc2.cur_samplerate devc2.limit_samples
        { devc2 with limit_msec := msecs }
      else devc2
    (ret, devc3)

/-- Common shape of sigma_set_samplerate's three supported-range branches,
with the firmware slot s and channel count nc abstracted; used to reason
about each range uniformly. -/
def set_samplerate_branch (env : FtdiEnv) (devc : DevContext) (r : Nat)
    (s : Int) (nc : Nat) : SrStatus × DevContext :=
  let u := upload_firmware env s devc
  let d2 := if u.1 = SrStatus.ok then
      { u.2.1 with num_channels := nc,
                   cur_samplerate := r,
                   samples_per_event := 16 / nc,
                   state := SigmaState.idle }
    else u.2.1
  let d3 := if u.1 = SrStatus.ok ∧ d2.limit_samples ≠ 0 then
      { d2 with limit_msec :=
          sigma_limit_samples_to_msec d2.cur_samplerate d2.limit_samples }
    else d2
  (u.1, d3)

lemma set_samplerate_branch_spec (env : FtdiEnv) (devc : DevContext)
    (r : Nat) (s : Int) (nc : Nat)
    (hinv : devc.cur_samplerate = r → devc.cur_firmware = s)
    (hmem : r ∈ samplerates)
    (heq : sigma_set_samplerate env devc r = set_samplerate_branch env devc r s nc) :
    ((sigma_set_samplerate env devc r).2.cur_samplerate = r ↔
      r ∈ samplerates ∧ (sigma_set_samplerate env devc r).1 = SrStatus.ok) ∧
    ((sigma_set_samplerate env devc r).1 = SrStatus.ok →
      (sigma_set_samplerate env devc r).2.num_channels = nc ∧
      (sigma_set_samplerate env devc r).2.samples_per_event = 16 / nc ∧
      (sigma_set_samplerate env devc r).2.state = SigmaState.idle ∧
      (sigma_set_samplerate env devc r).2.cur_samplerate = r) := by
  rw [heq]
  by_cases hok : (upload_firmware env s devc).1 = SrStatus.ok
  · constructor
    · constructor
      · intro _
        refine ⟨hmem, ?_⟩
        simp [set_samplerate_branch, hok]
      · intro _
        simp only [set_samplerate_branch, hok, if_true, true_and]
        split <;> rfl
    · intro _
      refine ⟨?_, ?_, ?_, ?_⟩ <;>
      · simp only [set_samplerate_branch, hok, if_true, true_and]
        split <;> rfl
  · have hne : devc.cur_samplerate ≠ r := by
      intro hc
      exact hok (by rw [upload_firmware_hit env s devc (hinv hc)])
    have hfail := (upload_firmware_devc env s devc).1 hok
    constructor
    · constructor
      · intro hcur
        exfalso
        apply hne
        simpa [set_samplerate_branch, hok, hfail] using hcur
      · rintro ⟨_, hsok⟩
        exfalso
        apply hok
        simpa [set_samplerate_branch] using hsok
    · intro hsok
      exfalso
      apply hok
      simpa [set_samplerate_branch] using hsok

/-- Claim C4: under the invariant that a device context already at rate r
carries the firmware slot of r, sigma_set_samplerate rejects rates absent
from the fixed table with the unsupported-samplerate error leaving the
whole context unchanged; after the call cur_samplerate equals r exactly
when r is supported and the call succeeded; and on success num_channels is
16 for r up to 50 MHz, 8 at 100 MHz, 4 at 200 MHz, samples_per_event is
16 / num_channels, and the state becomes Idle. -/
theorem sigma_set_samplerate_spec (env : FtdiEnv) (devc : DevContext)
    (r : Nat)
    (hinv : devc.cur_samplerate = r →
      r ∈ samplerates ∧ devc.cur_firmware = slotFor r) :
    (r ∉ samplerates →
      sigma_set_samplerate env devc r = (.err_samplerate, devc)) ∧
    ((sigma_set_samplerate env devc r).2.cur_samplerate = r ↔
      r ∈ samplerates ∧ (sigma_set_samplerate env devc r).1 = SrStatus.ok) ∧
    (r ∈ samplerates → (sigma_set_samplerate env devc r).1 = SrStatus.ok →
      (sigma_set_samplerate env devc r).2.num_channels
        = (if r ≤ 50000000 then 16 else if r = 100000000 then 8 else 4) ∧
      (sigma_set_samplerate env devc r).2.samples_per_event
        = 16 / (sigma_set_samplerate env devc r).2.num_channels ∧
      (sigma_set_samplerate env devc r).2.state = SigmaState.idle ∧
      (sigma_set_samplerate env devc r).2.cur_samplerate = r) := by
  by_cases hmem : r ∈ samplerates
  · have h50or : r ≤ 50000000 ∨ (¬ r ≤ 50000000 ∧ r = 100000000) ∨
        (¬ r ≤ 50000000 ∧ ¬ r = 100000000 ∧ r = 200000000) := by
      fin_cases hmem <;> norm_num
    have hcore :
        ((sigma_set_samplerate env devc r).2.cur_samplerate = r ↔
          r ∈ samplerates ∧ (sigma_set_samplerate env devc r).1 = SrStatus.ok) ∧
        ((sigma_set_samplerate env devc r).1 = SrStatus.ok →
          (sigma_set_samplerate env devc r).2.num_channels
            = (if r ≤ 50000000 then 16 else if r = 100000000 then 8 else 4) ∧
          (sigma_set_samplerate env devc r).2.samples_per_event
            = 16 / (if r ≤ 50000000 then 16 else if r = 100000000 then 8 else 4) ∧
          (sigma_set_samplerate env devc r).2.state = SigmaState.idle ∧
          (sigma_set_samplerate env devc r).2.cur_samplerate = r) := by
      rcases h50or with h | ⟨h1, h2⟩ | ⟨h1, h2, h3⟩
      · have hinv0 : devc.cur_samplerate = r → devc.cur_firmware = 0 := by
          intro hc
          have hfw := (hinv hc).2
          rwa [show slotFor r = 0 by simp [slotFor, h]] at hfw
        have heq : sigma_set_samplerate env devc r
            = set_samplerate_branch env devc r 0 16 := by
          simp [sigma_set_samplerate, set_samplerate_branch, hmem, h]
        have hh := set_samplerate_branch_spec env devc r 0 16 hinv0 hmem heq
        rw [if_pos h]
        exact hh
      · have hinv1 : devc.cur_samplerate = r → devc.cur_firmware = 1 := by
          intro hc
          have hfw := (hinv hc).2
          rwa [show slotFor r = 1 by simp [slotFor, h1, h2]] at hfw
        have heq : sigma_set_samplerate env devc r
            = set_samplerate_branch env devc r 1 8 := by
          have hmem2 : (100000000 : Nat) ∈ samplerates := by
            rw [← h2]
            exact hmem
          simp [sigma_set_samplerate, set_samplerate_branch, hmem, hmem2, h1, h2]
        have hh := set_samplerate_branch_spec env devc r 1 8 hinv1 hmem heq
        rw [if_neg h1, if_pos h2]
        exact hh
      · have hinv2 : devc.cur_samplerate = r → devc.cur_firmware = 2 := by
          intro hc
          have hfw := (hinv hc).2
          rwa [show slotFor r = 2 by simp [slotFor, h1, h2, h3]] at hfw
        have heq : sigma_set_samplerate env devc r
            = set_samplerate_branch env devc r 2 4 := by
          have hmem2 : (200000000 : Nat) ∈ samplerates := by
            rw [← h3]
            exact hmem
          simp [sigma_set_samplerate, set_samplerate_branch, hmem, hmem2, h1, h2, h3]
        have hh := set_samplerate_branch_spec env devc r 2 4 hinv2 hmem heq
        rw [if_neg h1, if_neg h2]
        exact hh
    refine ⟨fun hnm => absurd hmem hnm, hcore.1, fun _ hsok => ?_⟩
    have h4 := hcore.2 hsok
    refine ⟨h4.1, ?_, h4.2.2.1, h4.2.2.2⟩
    rw [h4.1]
    exact h4.2.1
  · have heqe : sigma_set_samplerate env devc r = (.err_samplerate, devc) := by
      simp [sigma_set_samplerate, hmem]
    have hne : devc.cur_samplerate ≠ r := fun hc => hmem (hinv hc).1
    refine ⟨fun _ => heqe, ?_, fun hm => absurd hm hmem⟩
    rw [heqe]
    constructor
    · intro hcur
      exact absurd hcur hne
    · rintro ⟨hm, _⟩
      exact absurd hm hmem

/-- Witness for claim C4's theorem: requesting 1 MHz on a context already
at 1 MHz with firmware slot 0 loaded (a firmware cache hit, so the upload
succeeds without hardware interaction). -/
theorem sigma_set_samplerate_spec_witness :
    ((1000000 : Nat) ∉ samplerates →
      sigma_set_samplerate ⟨true, true, [], none, true, 0, none⟩
          ⟨0, 1000000, 16, 1, SigmaState.idle, 0, 0⟩ 1000000
        = (.err_samplerate, ⟨0, 1000000, 16, 1, SigmaState.idle, 0, 0⟩)) ∧
    ((sigma_set_samplerate ⟨true, true, [], none, true, 0, none⟩
          ⟨0, 1000000, 16, 1, SigmaState.idle, 0, 0⟩ 1000000).2.cur_samplerate
        = 1000000 ↔
      (1000000 : Nat) ∈ samplerates ∧
      (sigma_set_samplerate ⟨true, true, [], none, true, 0, none⟩
          ⟨0, 1000000, 16, 1, SigmaState.idle, 0, 0⟩ 1000000).1 = SrStatus.ok) ∧
    ((1000000 : Nat) ∈ samplerates →
      (sigma_set_samplerate ⟨true, true, [], none, true, 0, none⟩
          ⟨0, 1000000, 16, 1, SigmaState.idle, 0, 0⟩ 1000000).1 = SrStatus.ok →
      (sigma_set_samplerate ⟨true, true, [], none, true, 0, none⟩
          ⟨0, 1000000, 16, 1, SigmaState.idle, 0, 0⟩ 1000000).2.num_channels
        = (if (1000000 : Nat) ≤ 50000000 then 16
           else if (1000000 : Nat) = 100000000 then 8 else 4) ∧
      (sigma_set_samplerate ⟨true, true, [], none, true, 0, none⟩
          ⟨0, 1000000, 16, 1, SigmaState.idle, 0, 0⟩ 1000000).2.samples_per_event
        = 16 / (sigma_set_samplerate ⟨true, true, [], none, true, 0, none⟩
            ⟨0, 1000000, 16, 1, SigmaState.idle, 0, 0⟩ 1000000).2.num_channels ∧
      (sigma_set_samplerate ⟨true, true, [], none, true, 0, none⟩
          ⟨0, 1000000, 16, 1, SigmaState.idle, 0, 0⟩ 1000000).2.state
        = SigmaState.idle ∧
      (sigma_set_samplerate ⟨true, true, [], none, true, 0, none⟩
          ⟨0, 1000000, 16, 1, SigmaState.idle, 0, 0⟩ 1000000).2.cur_samplerate
        = 1000000) :=
  sigma_set_samplerate_spec ⟨true, true, [], none, true, 0, none⟩
    ⟨0, 1000000, 16, 1, SigmaState.idle, 0, 0⟩ 1000000
    (fun _ => ⟨by decide, by decide⟩)
